import Mathlib

/-!
Verification of the step-resolution engine of the `agentauto` repository.

This file gives a shallow embedding of the parts of the code that the
claims are about, and proves or refutes each claim against it:

* the code validator `is_valid_step_code` and its helper regexes
  (`src/agent/extractors.py`, lines 14-60);
* the source arbiter of `run_step` (`src/agent/runner.py`, lines 195-227);
* the per-stage resynchronisation, advancement confirmation, stalled-stage
  retry and ledger appends of `run_challenge` (`src/agent/runner.py`,
  lines 475-649);
* the learning store `load_learned` / `save_learned`
  (`src/agent/learning.py`);
* the global submit-button fallback of `find_and_fill_code_input`
  (`src/agent/actions.py`, lines 411-424) with `DECOY_BUTTON_PATTERN`
  (`src/agent/site.py`, lines 40-42);
* the JSON stage-table scanner `_parse_json_for_codes`
  (`src/agent/extractors.py`, lines 258-305).

Python strings are modelled as Lean `String`s restricted to their ASCII
behaviour (the challenge site and all literals in the repository are
ASCII): `str.strip()` is modelled by `pyStrip`, `str.lower()` / `re.I`
by `asciiLower`, `\d` by `isDigitCh`.  Fallible values are `Option`s.
-/

namespace AgentAuto

/-! ## ASCII character helpers (model of Python's `str` primitives) -/

/-- Model of Python's whitespace class used by `str.strip()`:
space, tab, newline, carriage return, vertical tab, form feed. -/
def wsChar (c : Char) : Bool :=
  c == ' ' || c == '\t' || c == '\n' || c == '\r' || c == '\x0b' || c == '\x0c'

/-- Model of the regex class `\d` (ASCII digits). -/
def isDigitCh (c : Char) : Bool :=
  match c with
  | '0' => true | '1' => true | '2' => true | '3' => true | '4' => true
  | '5' => true | '6' => true | '7' => true | '8' => true | '9' => true
  | _ => false

/-- ASCII lower-casing of one character, the model of Python's
`str.lower()` and of `re.I` matching. -/
def asciiLower (c : Char) : Char :=
  match c with
  | 'A' => 'a' | 'B' => 'b' | 'C' => 'c' | 'D' => 'd' | 'E' => 'e'
  | 'F' => 'f' | 'G' => 'g' | 'H' => 'h' | 'I' => 'i' | 'J' => 'j'
  | 'K' => 'k' | 'L' => 'l' | 'M' => 'm' | 'N' => 'n' | 'O' => 'o'
  | 'P' => 'p' | 'Q' => 'q' | 'R' => 'r' | 'S' => 's' | 'T' => 't'
  | 'U' => 'u' | 'V' => 'v' | 'W' => 'w' | 'X' => 'x' | 'Y' => 'y'
  | 'Z' => 'z'
  | c => c

/-- Model of Python's `str.strip()` on the character list of a string. -/
def stripList (l : List Char) : List Char :=
  ((l.dropWhile wsChar).reverse.dropWhile wsChar).reverse

/-- Model of Python's `str.strip()`. -/
def pyStrip (s : String) : String :=
  String.mk (stripList s.data)

lemma asciiLower_of_isDigitCh (c : Char) (h : isDigitCh c = true) :
    asciiLower c = c := by
  unfold isDigitCh at h
  split at h <;> first
    | decide
    | exact absurd h (by decide)

lemma wsChar_eq_false_of_isDigitCh (c : Char) (h : isDigitCh c = true) :
    wsChar c = false := by
  unfold isDigitCh at h
  split at h <;> first
    | decide
    | exact absurd h (by decide)

/-! ## Code validator (`src/agent/extractors.py`, lines 14-60) -/

/-- The word list of the `DECOY_WORDS` regex (`extractors.py` lines 18-35),
lower-cased since the regex is compiled with `re.I` and anchored `^...$`
(exact match).  Duplicates of the source alternation are kept. -/
def decoyWords : List (List Char) :=
  [ "proceed".data, "continue".data, "advance".data, "forward".data,
    "reading".data, "section".data, "challenge".data, "browser".data,
    "navigation".data,
    "hidden".data, "complete".data, "click".data, "reveal".data,
    "submit".data, "enter".data, "next".data, "move".data, "going".data,
    "journey".data, "page".data, "step".data, "content".data, "block".data,
    "loaded".data,
    "automation".data, "ultimate".data, "test".data, "inspect".data,
    "element".data, "attributes".data, "labels".data, "tags".data,
    "somewhere".data, "hint".data, "check".data,
    "required".data, "optional".data, "character".data, "filler".data,
    "keep".data, "scrolling".data, "find".data, "button".data,
    "choose".data, "option".data, "wrong".data, "correct".data,
    "choice".data, "pick".data, "option".data, "select".data, "your".data,
    "this".data, "that".data, "the".data, "and".data, "for".data,
    "with".data, "from".data, "have".data, "will".data, "would".data,
    "scroll".data, "appeared".data, "revealed".data, "clicked".data,
    "loaded".data, "failed".data, "passed".data, "button".data,
    "submit".data, "before".data, "after".data,
    "inside".data, "outside".data, "within".data, "without".data,
    "below".data, "above".data, "between".data, "during".data,
    "before".data, "number".data, "string".data,
    "source".data, "target".data, "window".data, "screen".data,
    "element".data, "parent".data, "child".data, "sibling".data,
    "length".data, "height".data, "width".data,
    "subscribe".data, "newsletter".data, "important".data, "message".data,
    "popup".data, "modal".data, "overlay".data, "dialog".data,
    "another".data, "visible".data, "display".data, "showing".data,
    "waiting".data, "looking".data, "searching".data,
    "dismiss".data, "accept".data, "cookie".data, "consent".data,
    "privacy".data, "terms".data, "policy".data,
    "welcome".data, "hello".data, "thanks".data, "thank".data,
    "please".data, "sorry".data, "error".data, "warning".data,
    "success".data,
    "download".data, "upload".data, "share".data, "follow".data,
    "like".data, "comment".data, "social".data, "email".data,
    "already".data, "member".data, "account".data, "login".data,
    "signup".data, "register".data, "password".data, "username".data ]

/-- `DECOY_WORDS.match(token)`: token exactly matches one decoy word,
case-insensitively. -/
def decoyWordsMatch (t : String) : Bool :=
  decoyWords.contains (t.data.map asciiLower)

/-- Tail of `sDigitRev`: the `s\d?` alternative of `UNIT_LIKE_SUFFIX`
with the digit present, on the reversed lower-cased character list. -/
def sDigitRev (l : List Char) : Bool :=
  match l with
  | c :: 's' :: _ => isDigitCh c
  | _ => false

/-- The `%\d*` alternative of `UNIT_LIKE_SUFFIX`: some `%` is followed by
digits only up to the end of the string (on the reversed list: leading
digits, then `%`). -/
def percentRev (l : List Char) : Bool :=
  (l.dropWhile isDigitCh).head? == some '%'

/-- `UNIT_LIKE_SUFFIX.search(token)` (`extractors.py` line 41), i.e. the
regex `(?:px|em|rem|ms|s\d?|%\d*)$` with `re.I`, evaluated on the reversed
lower-cased character list.  `rem$` is subsumed by `em$`, and `ms$` plus
the bare `s$` of `s\d?` are subsumed by `s$`. -/
def unitSuffixRev (l : List Char) : Bool :=
  match l with
  | 'x' :: 'p' :: _ => true
  | 'm' :: 'e' :: _ => true
  | 's' :: _ => true
  | _ => sDigitRev l || percentRev l

/-- `UNIT_LIKE_SUFFIX.search(token)` on a string. -/
def unitLikeSuffix (t : String) : Bool :=
  unitSuffixRev ((t.data.map asciiLower).reverse)

/-- `MOSTLY_DIGITS.match(token)`: the regex `^\d{2,}$`. -/
def mostlyDigits (t : String) : Bool :=
  decide (t.data.length ≥ 2) && t.data.all isDigitCh

/-- `_is_unit_like_or_decoy` (`extractors.py` lines 45-53). -/
def is_unit_like_or_decoy (token : String) : Bool :=
  if token.data.length < 6 then true
  else if unitLikeSuffix token || mostlyDigits token then true
  else if decoyWordsMatch token then true
  else false

/-- `is_valid_step_code` (`extractors.py` lines 56-60); `none` models a
Python `None` argument, and the empty string is falsy in Python. -/
def is_valid_step_code (code : Option String) : Bool :=
  match code with
  | none => false
  | some c => if c = "" then false else ! is_unit_like_or_decoy (pyStrip c)

/-! ## Source arbiter (`src/agent/runner.py`, `run_step` lines 195-227)

The three probes have already produced their raw results
(`storage_result`, `network_result`, `dom_result`); each is an optional
candidate string tagged with its method name.  The arbiter walks a
try-order and falls back to the fixed tuple order. -/

/-- The raw probe outputs available to the arbiter: `storage_result[0]`,
`network_result[0]`, `dom_result[0]`.  The method tags of the tuples are
the constants `"localStorage"`, `"network"`, `"dom"`. -/
structure ProbeResults where
  storage : Option String
  network : Option String
  dom : Option String
deriving DecidableEq

/-- The candidate the arbiter reads for a given source tag (`run_step`
lines 213-218). -/
def probeFor (r : ProbeResults) (src : String) : Option String :=
  if src = "localStorage" then r.storage
  else if src = "network" then r.network
  else if src = "dom" then r.dom
  else none

/-- The try-order of `run_step` lines 204-209: `try_first` is the learned
method or `"localStorage"`; the order starts with it, the remaining
sources keep the default relative order. -/
def methodTryOrder (learnedMethod : Option String) : List String :=
  let tryFirst := learnedMethod.getD "localStorage"
  if tryFirst = "localStorage" then ["localStorage", "network", "dom"]
  else if tryFirst = "network" then ["network", "localStorage", "dom"]
  else ["dom", "localStorage", "network"]

/-- The loop of `run_step` lines 210-221: first source in the order whose
candidate is truthy (non-empty) and passes the validator. -/
def walkOrder (r : ProbeResults) : List String → Option (String × String)
  | [] => none
  | src :: rest =>
    match probeFor r src with
    | some cand =>
      if cand ≠ "" ∧ is_valid_step_code (some cand) = true then some (cand, src)
      else walkOrder r rest
    | none => walkOrder r rest

/-- The full candidate selection of `run_step` lines 210-227: walk the
try-order, then fall back to scanning the raw results in tuple order
(storage, network, dom) with the same truthy-and-valid test. -/
def pickCode (r : ProbeResults) (learnedMethod : Option String) :
    Option (String × String) :=
  match walkOrder r (methodTryOrder learnedMethod) with
  | some res => some res
  | none => walkOrder r ["localStorage", "network", "dom"]

/-- Whether a source contributes a truthy, validator-passing candidate. -/
def srcOk (r : ProbeResults) (src : String) : Bool :=
  match probeFor r src with
  | some cand => decide (cand ≠ "") && is_valid_step_code (some cand)
  | none => false

lemma walkOrder_eq_none_iff (r : ProbeResults) (l : List String) :
    walkOrder r l = none ↔ ∀ src ∈ l, srcOk r src = false := by
  induction l with
  | nil => simp [walkOrder]
  | cons src rest ih =>
    unfold walkOrder
    cases hp : probeFor r src with
    | none => simp [srcOk, hp, ih]
    | some cand =>
      by_cases hc : cand ≠ "" ∧ is_valid_step_code (some cand) = true
      · simp only [hp, if_pos hc]
        constructor
        · intro h; exact absurd h (by simp)
        · intro h
          have := h src (by simp)
          unfold srcOk at this
          rw [hp] at this
          simp only [Bool.and_eq_false_iff, decide_eq_false_iff_not] at this
          rcases this with h1 | h2
          · exact absurd hc.1 (by simpa using h1)
          · exact absurd hc.2 (by simp [h2])
      · simp only [hp, if_neg hc, ih]
        constructor
        · intro h src2 hmem
          rcases List.mem_cons.mp hmem with rfl | hmem2
          · unfold srcOk
            rw [hp]
            rcases Decidable.not_and_iff_or_not.mp hc with h1 | h2
            · simp at h1
              simp [h1, is_valid_step_code]
            · simp [Bool.and_eq_false_iff]
              intro hne
              simpa using h2
          · exact h src2 hmem2
        · intro h src2 hmem
          exact h src2 (List.mem_cons_of_mem _ hmem)

/-- Claim C1.  Arbiter selection: the try-order begins with the learned
preference (default `localStorage` ("storage"), `network`, `dom` when none
is learned); the selection returns the first candidate in the try-order
that is non-empty and passes the validator (the raw-results fallback never
changes the result, so `pickCode` equals the plain walk); with probe
outputs storage = "ABC123", network = none, dom = "XYZ999" and learned
preference `dom` it returns ("XYZ999", "dom"); with no learned preference
it returns ("ABC123", "localStorage"). -/
theorem arbiter_selection :
    (methodTryOrder none = ["localStorage", "network", "dom"]) ∧
    ((methodTryOrder (some "localStorage")).head? = some "localStorage") ∧
    ((methodTryOrder (some "network")).head? = some "network") ∧
    ((methodTryOrder (some "dom")).head? = some "dom") ∧
    (∀ r lm, pickCode r lm = walkOrder r (methodTryOrder lm)) ∧
    (pickCode ⟨some "ABC123", none, some "XYZ999"⟩ (some "dom") =
      some ("XYZ999", "dom")) ∧
    (pickCode ⟨some "ABC123", none, some "XYZ999"⟩ none =
      some ("ABC123", "localStorage")) := by
  refine ⟨rfl, rfl, rfl, rfl, ?_, by decide, by decide⟩
  intro r lm
  unfold pickCode
  cases hw : walkOrder r (methodTryOrder lm) with
  | some v => rfl
  | none =>
    have hall := (walkOrder_eq_none_iff r _).mp hw
    refine (walkOrder_eq_none_iff r _).mpr ?_
    intro src hmem
    apply hall
    have horder : ∀ s2, s2 ∈ (["localStorage", "network", "dom"] : List String) →
        s2 ∈ methodTryOrder lm := by
      intro s2 hs2
      simp only [methodTryOrder]
      split
      · exact hs2
      · split <;> (simp at hs2 ⊢; tauto)
    exact horder src hmem

/-! ## Step orchestrator (`src/agent/runner.py`, `run_challenge` lines 475-649)

One iteration of the `while expected_step <= 30` loop is modelled as a
pure function of an oracle record `IterEnv` holding everything the
iteration reads from the page: the top-of-loop step read, whether
`solve_one_step` succeeded, the polled step reads after submission, the
final step read, and the same data for the one-shot stalled retry.
Ledger entries (`StepResult`) keep the fields the claims mention. -/

/-- The fields of `StepResult` (`src/agent/metrics.py`) that the claims
are about: the stage, the success flag, and the method tag. -/
structure StepRes where
  step : Nat
  ok : Bool
  method : String
deriving DecidableEq

/-- Everything one loop iteration reads from the page and from
`solve_one_step`. -/
structure IterEnv where
  /-- `get_current_step(page)` at the top of the loop (line 478). -/
  pageStep : Option Nat
  /-- whether `solve_one_step` returned ok (line 516). -/
  solveOk : Bool
  /-- the method tag returned by `solve_one_step`. -/
  method : String
  /-- the sequence of `get_current_step` reads of the advancement polls
  (lines 576-582). -/
  polls1 : List (Option Nat)
  /-- the final `get_current_step` read, `s_final` (line 592). -/
  finalRead1 : Option Nat
  /-- whether the stalled-stage `solve_one_step` retry returned ok
  (line 599). -/
  retrySolveOk : Bool
  /-- the method tag of the stalled-stage retry. -/
  retryMethod : String
  /-- the poll reads of the retry advancement loop (lines 607-610). -/
  polls2 : List (Option Nat)
  /-- the re-read of `s_final` after the retry polls (line 619). -/
  finalRead2 : Option Nat
deriving DecidableEq

/-- What one loop iteration produces: the ledger entries appended, the
next `expected_step` (`none` models `break`), and how many full
re-resolutions (stalled-stage `solve_one_step` calls) it performed. -/
structure IterOut where
  results : List StepRes
  next : Option Nat
  reRes : Nat
deriving DecidableEq

/-- The resynchronisation of lines 488-497: fast-forward when the page is
strictly ahead; snap down when it is behind by at least 3; ignore a
smaller lag. -/
def resyncExpected (expected : Nat) (pageStep : Option Nat) : Nat :=
  match pageStep with
  | none => expected
  | some p =>
    if p < expected then
      if expected - p ≥ 3 then p else expected
    else if p > expected then p
    else expected

/-- The advancement poll loop (lines 576-582 and 607-610): the first read
that is a step at least one beyond the submitted stage, if any. -/
def pollAdvance (polls : List (Option Nat)) (step : Nat) : Option Nat :=
  match polls with
  | [] => none
  | p :: rest =>
    match p with
    | some s => if step + 1 ≤ s then some s else pollAdvance rest step
    | none => pollAdvance rest step

/-- The stalled-stage handler for stages 1-5 (lines 596-630): one full
re-resolution (`solve_one_step` again), then its own advancement polls,
then the re-read of `s_final`; the `reRes` count of the output is 1 in
every branch.  When the re-read is `none`, line 642 falls through to
`continue` with nothing recorded and `expected_step` unchanged. -/
def stalledRetry (coe : Bool) (e : Nat) (env : IterEnv) : IterOut :=
  if env.retrySolveOk then
    match pollAdvance env.polls2 e with
    | some s => ⟨[⟨e, true, env.retryMethod⟩], some s, 1⟩
    | none =>
      match env.finalRead2 with
      | some f2 =>
        if f2 = e then
          ⟨[⟨e, false, env.method⟩], if coe then some (e + 1) else none, 1⟩
        else ⟨[⟨e, true, env.retryMethod⟩], some f2, 1⟩
      | none => ⟨[], some e, 1⟩
  else ⟨[⟨e, false, env.method⟩], if coe then some (e + 1) else none, 1⟩

/-- One iteration of the `while expected_step <= 30` loop (lines 476-649),
with `coe` the `continue_on_error` flag: resynchronise, solve, poll for
advancement, and dispatch on the final read (advanced / stalled /
inferred advance). -/
def runIter (coe : Bool) (expected : Nat) (env : IterEnv) : IterOut :=
  let e := resyncExpected expected env.pageStep
  if env.solveOk then
    match pollAdvance env.polls1 e with
    | some s => ⟨[⟨e, true, env.method⟩], some s, 0⟩
    | none =>
      match env.finalRead1 with
      | some f =>
        if f = e then
          if e = 1 ∨ e = 2 ∨ e = 3 ∨ e = 4 ∨ e = 5 then stalledRetry coe e env
          else ⟨[⟨e, false, env.method⟩], if coe then some (e + 1) else none, 0⟩
        else ⟨[⟨e, true, env.method⟩], some (e + 1), 0⟩
      | none => ⟨[⟨e, true, env.method⟩], some (e + 1), 0⟩
  else ⟨[⟨e, false, env.method⟩], if coe then some (e + 1) else none, 0⟩

/-- The loop itself, driven by a finite trace of per-iteration oracles;
terminates when the trace ends, when `expected_step` passes 30, or when an
iteration breaks. -/
def runLoop (coe : Bool) (expected : Nat) : List IterEnv → List StepRes
  | [] => []
  | env :: rest =>
    if expected > 30 then []
    else
      let out := runIter coe expected env
      out.results ++
        (match out.next with
         | none => []
         | some e2 => runLoop coe e2 rest)

/-- Number of ledger entries recorded for a given stage. -/
def countStep (rs : List StepRes) (k : Nat) : Nat :=
  (rs.filter (fun r => r.step == k)).length

/-- Claim C4.  Stage resynchronisation: a page report strictly ahead of
the expected stage replaces it; a report behind by at least 3 snaps the
expected stage down; a report behind by 1 or 2 leaves it unchanged;
expected 10 with report 2 snaps to 2, expected 10 with report 9 stays
at 10. -/
theorem resync_policy (e p : Nat) :
    (e < p → resyncExpected e (some p) = p) ∧
    (p < e ∧ e - p ≥ 3 → resyncExpected e (some p) = p) ∧
    (p < e ∧ e - p < 3 → resyncExpected e (some p) = e) ∧
    resyncExpected 10 (some 2) = 2 ∧
    resyncExpected 10 (some 9) = 10 := by
  refine ⟨?_, ?_, ?_, by decide, by decide⟩
  · intro h
    simp only [resyncExpected]
    rw [if_neg (by omega), if_pos h]
  · rintro ⟨h1, h2⟩
    simp only [resyncExpected]
    rw [if_pos h1, if_pos h2]
  · rintro ⟨h1, h2⟩
    simp only [resyncExpected]
    rw [if_pos h1, if_neg (by omega)]

/-- Witness for C4 at the spec's concrete inputs. -/
theorem resync_policy_witness :
    resyncExpected 10 (some 2) = 2 ∧ resyncExpected 10 (some 9) = 10 :=
  ⟨(resync_policy 10 2).2.1 ⟨by decide, by decide⟩,
   (resync_policy 10 9).2.2.1 ⟨by decide, by decide⟩⟩

/-- Claim C2.  Ambiguous advancement: when the polls never see a stage at
least one beyond the submitted stage and the final read is unavailable
(`none`), the iteration infers an advance: the expected stage is
incremented by exactly one and a success `StepResult` is recorded for the
submitted stage. -/
theorem ambiguous_inferred_advance (coe : Bool) (expected : Nat) (env : IterEnv)
    (hsolve : env.solveOk = true)
    (hpoll : pollAdvance env.polls1 (resyncExpected expected env.pageStep) = none)
    (hfinal : env.finalRead1 = none) :
    runIter coe expected env =
      ⟨[⟨resyncExpected expected env.pageStep, true, env.method⟩],
       some (resyncExpected expected env.pageStep + 1), 0⟩ := by
  unfold runIter
  rw [hsolve]
  simp only [if_true, hpoll, hfinal]

/-- Witness for C2: submitted stage 7 (no resync), two failed polls,
final read unavailable. -/
theorem ambiguous_inferred_advance_witness :
    runIter false 7 ⟨none, true, "dom", [none, some 7], none, false, "", [], none⟩ =
      ⟨[⟨7, true, "dom"⟩], some 8, 0⟩ :=
  ambiguous_inferred_advance false 7
    ⟨none, true, "dom", [none, some 7], none, false, "", [], none⟩
    rfl (by decide) rfl

lemma stalledRetry_reRes (coe : Bool) (e : Nat) (env : IterEnv) :
    (stalledRetry coe e env).reRes = 1 := by
  unfold stalledRetry
  split
  · split
    · rfl
    · split
      · split <;> rfl
      · rfl
  · rfl

/-- Claim C3.  Stalled-stage recovery: when the polls never advance and
the final read still equals the submitted stage, a submitted stage in 1-5
performs exactly one full re-resolution (in every outcome of that retry),
while a submitted stage above 5 records the terminal failure immediately
with no re-resolution. -/
theorem stalled_stage_recovery (coe : Bool) (expected : Nat) (env : IterEnv)
    (hsolve : env.solveOk = true)
    (hpoll : pollAdvance env.polls1 (resyncExpected expected env.pageStep) = none)
    (hfinal : env.finalRead1 = some (resyncExpected expected env.pageStep)) :
    (1 ≤ resyncExpected expected env.pageStep ∧
        resyncExpected expected env.pageStep ≤ 5 →
      (runIter coe expected env).reRes = 1) ∧
    (5 < resyncExpected expected env.pageStep →
      (runIter coe expected env).reRes = 0 ∧
      (runIter coe expected env).results =
        [⟨resyncExpected expected env.pageStep, false, env.method⟩]) := by
  have hiter : runIter coe expected env =
      (if resyncExpected expected env.pageStep = 1 ∨
          resyncExpected expected env.pageStep = 2 ∨
          resyncExpected expected env.pageStep = 3 ∨
          resyncExpected expected env.pageStep = 4 ∨
          resyncExpected expected env.pageStep = 5 then
        stalledRetry coe (resyncExpected expected env.pageStep) env
      else
        ⟨[⟨resyncExpected expected env.pageStep, false, env.method⟩],
         if coe then some (resyncExpected expected env.pageStep + 1) else none,
         0⟩) := by
    unfold runIter
    rw [hsolve]
    simp only [if_true, hpoll, hfinal, if_pos rfl]
  constructor
  · rintro ⟨h1, h2⟩
    rw [hiter, if_pos (by omega)]
    exact stalledRetry_reRes coe _ env
  · intro h5
    rw [hiter, if_neg (by omega)]
    exact ⟨rfl, rfl⟩

/-- Witness for C3: submitted stage 3 stalls (final read 3) and the
re-resolution also fails to advance; exactly one re-resolution happened;
the above-5 branch is vacuous at stage 3. -/
theorem stalled_stage_recovery_witness :
    (1 ≤ resyncExpected 3 none ∧ resyncExpected 3 none ≤ 5 →
      (runIter false 3 ⟨none, true, "dom", [some 3], some 3, true, "dom",
        [some 3], some 3⟩).reRes = 1) ∧
    (5 < resyncExpected 3 none →
      (runIter false 3 ⟨none, true, "dom", [some 3], some 3, true, "dom",
        [some 3], some 3⟩).reRes = 0 ∧
      (runIter false 3 ⟨none, true, "dom", [some 3], some 3, true, "dom",
        [some 3], some 3⟩).results = [⟨resyncExpected 3 none, false, "dom"⟩]) :=
  stalled_stage_recovery false 3
    ⟨none, true, "dom", [some 3], some 3, true, "dom", [some 3], some 3⟩
    rfl (by decide) (by decide)

/-- A four-iteration trace: stages 1, 2, 3 advance normally, then the
page reports stage 1 (a regression of 3), the loop resynchronises down
and solves stage 1 again. -/
def dupTrace : List IterEnv :=
  [ ⟨none, true, "localStorage", [some 2], none, false, "", [], none⟩,
    ⟨none, true, "localStorage", [some 3], none, false, "", [], none⟩,
    ⟨none, true, "localStorage", [some 4], none, false, "", [], none⟩,
    ⟨some 1, true, "localStorage", [some 2], none, false, "", [], none⟩ ]

/-- Counterexample to claim C5 as stated: in a single run (one `runLoop`
trace) stage 1 receives two terminal success `StepResult`s, because the
session-regression resync of lines 489-492 re-attempts a stage that
already has a ledger entry. -/
theorem ledger_duplicate_counterexample :
    runLoop false 1 dupTrace =
      [⟨1, true, "localStorage"⟩, ⟨2, true, "localStorage"⟩,
       ⟨3, true, "localStorage"⟩, ⟨1, true, "localStorage"⟩] ∧
    countStep (runLoop false 1 dupTrace) 1 = 2 := by
  constructor
  · rfl
  · rfl

/-- Claim C5, amended.  Within a single stage attempt (one loop
iteration, including its local retries and the one-shot re-resolution) at
most one `StepResult` is appended, and it is for the attempted
(resynchronised) stage; across a run, however, a stage re-attempted after
a session-regression resync can receive a second terminal entry. -/
lemma stalledRetry_results (c : Bool) (e : Nat) (env : IterEnv) :
    (stalledRetry c e env).results.length ≤ 1 ∧
    ∀ r ∈ (stalledRetry c e env).results, r.step = e := by
  unfold stalledRetry
  cases hrs : env.retrySolveOk
  · simp
  · cases hp : pollAdvance env.polls2 e
    · cases hf : env.finalRead2
      · simp
      · rename_i f2
        by_cases hfe : f2 = e <;> simp [hfe]
    · simp

theorem ledger_single_append_per_attempt (coe : Bool) (expected : Nat)
    (env : IterEnv) :
    (runIter coe expected env).results.length ≤ 1 ∧
    ∀ r ∈ (runIter coe expected env).results,
      r.step = resyncExpected expected env.pageStep := by
  unfold runIter
  cases hsv : env.solveOk
  · simp [hsv]
  · cases hp : pollAdvance env.polls1 (resyncExpected expected env.pageStep)
    · cases hf : env.finalRead1
      · simp [hsv, hp, hf]
      · rename_i f
        by_cases hfe : f = resyncExpected expected env.pageStep
        · by_cases hw : resyncExpected expected env.pageStep = 1 ∨
              resyncExpected expected env.pageStep = 2 ∨
              resyncExpected expected env.pageStep = 3 ∨
              resyncExpected expected env.pageStep = 4 ∨
              resyncExpected expected env.pageStep = 5
          · simp only [hsv, hp, hf, hfe, eq_self_iff_true, if_true,
              if_pos hw]
            exact stalledRetry_results coe _ env
          · simp [hsv, hp, hf, hfe, hw]
        · simp [hsv, hp, hf, hfe]
    · simp [hsv, hp]

/-- Witness for the amended C5: a concrete iteration appends exactly one
entry, whose stage is the resynchronised expected stage. -/
theorem ledger_single_append_per_attempt_witness :
    (⟨7, true, "dom"⟩ : StepRes).step = resyncExpected 7 none :=
  (ledger_single_append_per_attempt false 7
      ⟨none, true, "dom", [], none, false, "", [], none⟩).2
    ⟨7, true, "dom"⟩ (by decide)

/-! ## Learning store (`src/agent/learning.py`)

A learned file is modelled as `Option (List (Nat × String))`: `none` is a
missing or unreadable file (or one whose `method_per_step` is not a
dict), `some m` the insertion-ordered `method_per_step` entries.  Python
dict updates are modelled by `upsert`, which replaces in place or appends,
matching insertion-order semantics; dict key access is `alookup`. -/

/-- Python `d.get(k)` on an insertion-ordered association list. -/
def alookup (m : List (Nat × String)) (k : Nat) : Option String :=
  match m with
  | [] => none
  | (k2, v) :: rest => if k2 = k then some v else alookup rest k

/-- Python `d[k] = v` on an insertion-ordered association list. -/
def upsert (m : List (Nat × String)) (k : Nat) (v : String) :
    List (Nat × String) :=
  if m.any (fun kv => kv.1 == k) then
    m.map (fun kv => if kv.1 == k then (k, v) else kv)
  else m ++ [(k, v)]

/-- The value filter of `load_learned` line 29: only the three known
method names are kept. -/
def filterValidMethods (m : List (Nat × String)) : List (Nat × String) :=
  m.filter (fun kv => kv.2 == "dom" || kv.2 == "localStorage" || kv.2 == "network")

/-- `load_learned(out_dir, shared_dir)` (`learning.py` lines 13-32): the
bases are tried in the order `(shared_dir, out_dir)` and the FIRST file
that exists and parses is returned (filtered to known methods); there is
no merging of the two files. -/
def load_learned (shared runLocal : Option (List (Nat × String))) :
    List (Nat × String) :=
  match shared with
  | some m => filterValidMethods m
  | none =>
    match runLocal with
    | some m => filterValidMethods m
    | none => []

/-- The per-run `method_per_step` map built by `save_learned` lines 42-45:
successful steps with a truthy method, later entries overriding. -/
def methodPerStepOf (results : List StepRes) : List (Nat × String) :=
  results.foldl
    (fun m s => if s.ok && s.method ≠ "" then upsert m s.step s.method else m)
    []

/-- The two files `save_learned` writes (`learning.py` lines 35-77): the
run-local file gets this run's map; the shared file gets the entries
loaded from the shared file (filtered) updated with this run's successes.
The `Path(".")` fallback base of the internal `load_learned` call is
modelled as absent.  A field of `none` means the file is not (re)written;
`sharedFile` carries the resulting state of the shared file. -/
structure SaveOut where
  localFile : Option (List (Nat × String))
  sharedFile : Option (List (Nat × String))
deriving DecidableEq

/-- `save_learned(out_dir, step_results, shared_dir)` as a function of the
prior shared-file state. -/
def save_learned (shared : Option (List (Nat × String)))
    (results : List StepRes) : SaveOut :=
  let mps := methodPerStepOf results
  if results.isEmpty || mps.isEmpty then ⟨none, shared⟩
  else
    ⟨some mps,
     some (results.foldl
       (fun m s => if s.ok && s.method ≠ "" then upsert m s.step s.method else m)
       (load_learned shared none))⟩

/-- Counterexample to claim C6 as stated: with a shared file `{1: dom}`
and a run-local file `{2: network}` both present, the load returns only
the shared entries; stage 2, present only in the run-local file, does not
appear — the load is not a merge. -/
theorem load_no_merge_counterexample :
    load_learned (some [(1, "dom")]) (some [(2, "network")]) = [(1, "dom")] ∧
    alookup (load_learned (some [(1, "dom")]) (some [(2, "network")])) 2 =
      none := by
  constructor
  · decide
  · decide

/-- Claim C6, amended.  The load does not merge: it deterministically
returns the entries (filtered to known sources) of the first readable
file in the precedence order shared-then-run-local; when the shared file
is readable the run-local file is ignored entirely, and only when the
shared file is absent or unreadable is the run-local file used. -/
theorem load_shared_precedence :
    (∀ m runLocal, load_learned (some m) runLocal = filterValidMethods m) ∧
    (∀ m, load_learned none (some m) = filterValidMethods m) ∧
    load_learned none none = [] :=
  ⟨fun _ _ => rfl, fun _ => rfl, rfl⟩

/-- Counterexample to claim C7 as stated: a first run whose stage 3
succeeded via the LLM fallback writes `{3: "llm"}` into the shared store
(`save_learned` does not filter methods on write); a second run that only
touched stage 5 then drops the stage-3 entry, because the internal load
filters `"llm"` out before merging — so saving can delete a shared entry
for a stage not touched by the current run. -/
theorem save_drops_unknown_method_counterexample :
    (save_learned none [⟨3, true, "llm"⟩]).sharedFile = some [(3, "llm")] ∧
    (save_learned (some [(3, "llm")]) [⟨5, true, "dom"⟩]).sharedFile =
      some [(5, "dom")] ∧
    alookup
      (((save_learned (some [(3, "llm")]) [⟨5, true, "dom"⟩]).sharedFile).getD
        []) 3 = none := by
  refine ⟨by decide, by decide, by decide⟩

lemma alookup_map_keep_ne (rest : List (Nat × String)) (k k2 : Nat)
    (v : String) (h : k ≠ k2) :
    alookup (rest.map (fun kv => if kv.1 == k2 then (k2, v) else kv)) k =
      alookup rest k := by
  induction rest with
  | nil => rfl
  | cons kv t ih =>
    obtain ⟨a, b⟩ := kv
    by_cases hk : a = k2
    · subst hk
      simp only [List.map_cons, beq_self_eq_true, if_true]
      simp only [alookup]
      rw [if_neg (fun hh => h hh.symm), if_neg (fun hh => h hh.symm)]
      exact ih
    · simp only [List.map_cons]
      rw [show (if (a == k2) = true then (k2, v) else (a, b)) = (a, b) by
        simp [hk]]
      simp only [alookup]
      split
      · rfl
      · exact ih

lemma alookup_append_single_ne (m : List (Nat × String)) (k k2 : Nat)
    (v : String) (h : k ≠ k2) :
    alookup (m ++ [(k2, v)]) k = alookup m k := by
  induction m with
  | nil =>
    simp only [List.nil_append, alookup]
    rw [if_neg (fun hh => h hh.symm)]
  | cons kv rest ih =>
    obtain ⟨a, b⟩ := kv
    rw [List.cons_append]
    simp only [alookup]
    split
    · rfl
    · exact ih

lemma alookup_upsert_ne (m : List (Nat × String)) (k k2 : Nat) (v : String)
    (h : k ≠ k2) : alookup (upsert m k2 v) k = alookup m k := by
  unfold upsert
  split
  · exact alookup_map_keep_ne m k k2 v h
  · exact alookup_append_single_ne m k k2 v h

lemma alookup_fold_upsert_untouched (results : List StepRes)
    (m : List (Nat × String)) (k : Nat)
    (hk : ∀ s ∈ results, s.ok = true → s.method ≠ "" → s.step ≠ k) :
    alookup
      (results.foldl
        (fun m2 s => if s.ok && s.method ≠ "" then upsert m2 s.step s.method
          else m2) m) k = alookup m k := by
  induction results generalizing m with
  | nil => rfl
  | cons s rest ih =>
    rw [List.foldl_cons]
    rw [ih _ (fun s2 hs2 => hk s2 (List.mem_cons_of_mem _ hs2))]
    split
    · rename_i hcond
      simp only [Bool.and_eq_true, decide_eq_true_eq] at hcond
      have hne : k ≠ s.step :=
        Ne.symm (hk s (List.mem_cons_self _ _) hcond.1 hcond.2)
      exact alookup_upsert_ne m k s.step s.method hne
    · rfl

lemma alookup_filter_of_alookup (m : List (Nat × String))
    (p : Nat × String → Bool) (k : Nat) (v : String)
    (h : alookup m k = some v) (hp : p (k, v) = true) :
    alookup (m.filter p) k = some v := by
  induction m with
  | nil => simp [alookup] at h
  | cons kv rest ih =>
    obtain ⟨a, b⟩ := kv
    simp only [alookup] at h
    by_cases hk : a = k
    · subst hk
      rw [if_pos rfl] at h
      simp only [Option.some.injEq] at h
      subst h
      rw [List.filter_cons, if_pos hp]
      simp [alookup]
    · rw [if_neg hk] at h
      rw [List.filter_cons]
      split
      · simp only [alookup]
        rw [if_neg hk]
        exact ih h
      · exact ih h

lemma alookup_filter_imp (m : List (Nat × String))
    (p : Nat × String → Bool) (k : Nat) (v : String)
    (h : alookup (m.filter p) k = some v) : p (k, v) = true := by
  induction m with
  | nil => simp [alookup] at h
  | cons kv rest ih =>
    obtain ⟨a, b⟩ := kv
    rw [List.filter_cons] at h
    by_cases hkeep : p (a, b) = true
    · rw [if_pos hkeep] at h
      simp only [alookup] at h
      by_cases hk : a = k
      · subst hk
        rw [if_pos rfl] at h
        simp only [Option.some.injEq] at h
        subst h
        exact hkeep
      · rw [if_neg hk] at h
        exact ih h
    · rw [if_neg (by simpa using hkeep)] at h
      exact ih h

/-- Claim C7, amended.  The shared save is a union merge over entries
whose stored method is one of the three known sources: any such entry for
a stage not touched by the current run is still visible to the next load
after saving; and the concrete round trip — saving `{3: network}` in one
run, then `{5: dom}` in a second run against the same shared store —
yields a shared map containing both entries.  (Entries with an unknown
stored method such as `"llm"` are not preserved; see the
counterexample.) -/
theorem save_union_merge_known_methods :
    (alookup
        (load_learned
          ((save_learned
              ((save_learned none [⟨3, true, "network"⟩]).sharedFile)
              [⟨5, true, "dom"⟩]).sharedFile) none) 3 = some "network" ∧
      alookup
        (load_learned
          ((save_learned
              ((save_learned none [⟨3, true, "network"⟩]).sharedFile)
              [⟨5, true, "dom"⟩]).sharedFile) none) 5 = some "dom") ∧
    (∀ m results k v,
      alookup (load_learned (some m) none) k = some v →
      (∀ s ∈ results, s.ok = true → s.method ≠ "" → s.step ≠ k) →
      alookup (load_learned ((save_learned (some m) results).sharedFile) none) k
        = some v) := by
  refine ⟨⟨by decide, by decide⟩, ?_⟩
  intro m results k v hv hk
  unfold save_learned
  by_cases hempty : (results.isEmpty || (methodPerStepOf results).isEmpty) = true
  · simpa [hempty] using hv
  · simp only [Bool.not_eq_true] at hempty
    simp only [hempty, Bool.false_eq_true, if_false]
    simp only [load_learned] at hv ⊢
    have hvalid : (fun kv : Nat × String =>
        kv.2 == "dom" || kv.2 == "localStorage" || kv.2 == "network") (k, v)
        = true :=
      alookup_filter_imp m _ k v (by simpa [filterValidMethods] using hv)
    apply alookup_filter_of_alookup _ _ _ _ _ hvalid
    rw [alookup_fold_upsert_untouched results _ k hk]
    simpa [load_learned, filterValidMethods] using hv

/-- Witness for the amended C7: preservation applied at the concrete
shared store `{3: network}` with a run that only touched stage 5. -/
theorem save_union_merge_known_methods_witness :
    alookup
      (load_learned
        ((save_learned (some [(3, "network")]) [⟨5, true, "dom"⟩]).sharedFile)
        none) 3 = some "network" :=
  save_union_merge_known_methods.2 [(3, "network")] [⟨5, true, "dom"⟩] 3
    "network" (by decide) (by decide)

/-! ## Submission controller fallback
(`src/agent/actions.py`, `find_and_fill_code_input` lines 411-424)

The fallback loop walks `SUBMIT_BUTTON_SELECTORS` in order; for each
selector the page yields at most the first matching control, modelled as
`Option (String × Bool)`: its raw visible text and whether clicking it
succeeds (a raised Playwright exception is caught and the loop moves on).
A control whose stripped text matches `DECOY_BUTTON_PATTERN` is skipped
with `continue` before any click is attempted. -/

/-- The exact-match alternatives of `DECOY_BUTTON_PATTERN`
(`src/agent/site.py` lines 40-42), lower-cased for `re.I`. -/
def decoyButtonTexts : List (List Char) :=
  [ "here!".data, "button!".data, "try this!".data, "click me!".data,
    "continue reading".data, "link!".data ]

/-- `DECOY_BUTTON_PATTERN.match(text)`: exact case-insensitive match. -/
def decoyButtonMatch (t : String) : Bool :=
  decoyButtonTexts.contains (t.data.map asciiLower)

/-- The fallback loop over the global submit-like selectors: returns the
stripped text of the control it clicked, if any. -/
def fallbackSubmit : List (Option (String × Bool)) → Option String
  | [] => none
  | none :: rest => fallbackSubmit rest
  | some (txt, clickOk) :: rest =>
    if decoyButtonMatch (pyStrip txt) then fallbackSubmit rest
    else if clickOk then some (pyStrip txt) else fallbackSubmit rest

/-- Claim C9.  Decoy-submit avoidance: the fallback over the global
submit-like selectors never clicks a control whose visible (stripped)
text matches the decoy-label pattern — whatever it clicks fails the
pattern, and a decoy-matching candidate is always skipped, leaving the
result unchanged. -/
theorem fallback_never_clicks_decoy :
    (∀ (cands : List (Option (String × Bool))) (t : String),
      fallbackSubmit cands = some t → decoyButtonMatch t = false) ∧
    (∀ (d : String) (b : Bool) (rest : List (Option (String × Bool))),
      decoyButtonMatch (pyStrip d) = true →
      fallbackSubmit (some (d, b) :: rest) = fallbackSubmit rest) := by
  constructor
  · intro cands
    induction cands with
    | nil => intro t h; exact absurd h (by simp [fallbackSubmit])
    | cons c rest ih =>
      intro t h
      match c with
      | none => exact ih t h
      | some (txt, clickOk) =>
        rw [fallbackSubmit] at h
        by_cases hd : decoyButtonMatch (pyStrip txt) = true
        · rw [if_pos hd] at h
          exact ih t h
        · rw [if_neg hd] at h
          by_cases hc : clickOk = true
          · rw [if_pos hc] at h
            simp only [Option.some.injEq] at h
            subst h
            simpa using hd
          · rw [if_neg hc] at h
            exact ih t h
  · intro d b rest hd
    rw [fallbackSubmit, if_pos hd]

/-- Witness for C9: the first selector finds the decoy "Here!", which is
skipped; the click lands on "Submit Code", which is not a decoy. -/
theorem fallback_never_clicks_decoy_witness :
    decoyButtonMatch "Submit Code" = false ∧
    fallbackSubmit [some ("Here!", true), some ("Submit Code", true)] =
      fallbackSubmit [some ("Submit Code", true)] :=
  ⟨fallback_never_clicks_decoy.1
      [some ("Here!", true), some ("Submit Code", true)] "Submit Code"
      (by decide),
   fallback_never_clicks_decoy.2 "Here!" true [some ("Submit Code", true)]
      (by decide)⟩

/-! ## JSON stage-table scanner
(`src/agent/extractors.py`, `_parse_json_for_codes` lines 258-305)

`json.loads` output is modelled by the `Json` inductive.  The inner
`scan` threads the mutable `result` dict and the `path` string; its guard
is `if path.count("_") > 5: return` — it counts underscore characters in
the accumulated path (whose separator is `/`), not the depth. -/

/-- JSON values as produced by `json.loads`. -/
inductive Json where
  | str (s : String)
  | num (n : Int)
  | bool (b : Bool)
  | null
  | arr (xs : List Json)
  | obj (fields : List (String × Json))

/-- The character class `[A-Za-z0-9\-_]` of `code_like_token`. -/
def isCodeChar (c : Char) : Bool :=
  c.isAlpha || isDigitCh c || c == '-' || c == '_'

/-- `code_like_token(s, min_len)` (`src/agent/site.py` lines 92-96):
length at least `min_len` and the stripped string fully matches
`^[A-Za-z0-9\-_]+$`. -/
def code_like_token (s : String) (minLen : Nat) : Bool :=
  if s = "" || decide (s.data.length < minLen) then false
  else
    let t := stripList s.data
    decide (t ≠ []) && t.all isCodeChar

/-- Whether `hay` starts with `needle`. -/
def listStartsWith : List Char → List Char → Bool
  | _, [] => true
  | [], _ :: _ => false
  | c :: cs, d :: ds => c == d && listStartsWith cs ds

/-- Whether `needle` occurs contiguously in `hay` (Python `in` on
strings). -/
def listInfix : List Char → List Char → Bool
  | hay, needle =>
    listStartsWith hay needle ||
      (match hay with
       | [] => false
       | _ :: t => listInfix t needle)

/-- `any(x in k_lower for x in ("code", "answer", "step", "challenge",
"token"))` (line 273). -/
def keyHasVocab (k : String) : Bool :=
  let kl := k.data.map asciiLower
  listInfix kl "code".data || listInfix kl "answer".data ||
  listInfix kl "step".data || listInfix kl "challenge".data ||
  listInfix kl "token".data

/-- `re.search(r"\d+", k)`: the first maximal digit run. -/
def firstNumberIn : List Char → Option (List Char)
  | [] => none
  | c :: t =>
    if isDigitCh c then some (c :: t.takeWhile isDigitCh)
    else firstNumberIn t

/-- `int(...)` on a digit run. -/
def digitsToNat (l : List Char) : Nat :=
  l.foldl (fun a c => a * 10 + (c.toNat - 48)) 0

/-- The step-index inference from a dict key (lines 275-282): a digit run
when the key mentions `step`, else the key itself when it is all
digits. -/
def stepFromKey (k : String) : Option Nat :=
  let viaStep : Option Nat :=
    if listInfix (k.data.map asciiLower) "step".data then
      (firstNumberIn k.data).map digitsToNat
    else none
  match viaStep with
  | some n => some n
  | none =>
    if decide (k ≠ "") && k.data.all isDigitCh then some (digitsToNat k.data)
    else none

/-- The dict-entry recorder of `scan` (lines 270-283). -/
def scanDictEntry (k : String) (v : Json) (res : List (Nat × String)) :
    List (Nat × String) :=
  match v with
  | .str sv =>
    if code_like_token sv 4 && keyHasVocab k then
      match stepFromKey k with
      | some st => if 1 ≤ st ∧ st ≤ 30 then upsert res st sv else res
      | none => res
    else res
  | _ => res

/-- The inner loop of the positional branch for dict elements
(lines 291-294): the first field whose key mentions `code` and whose
value is a string. -/
def findCodeField : List (String × Json) → Option String
  | [] => none
  | (k, v) :: rest =>
    match v with
    | .str sv =>
      if listInfix (k.data.map asciiLower) "code".data then some sv
      else findCodeField rest
    | _ => findCodeField rest

/-- The positional branch for a list of length `step_count`
(lines 286-294); it does not recurse. -/
def positionalFill : List Json → Nat → List (Nat × String) →
    List (Nat × String)
  | [], _, res => res
  | v :: rest, i, res =>
    let res2 :=
      match v with
      | .str sv => if code_like_token sv 4 then upsert res (i + 1) sv else res
      | .obj fields =>
        match findCodeField fields with
        | some sv => upsert res (i + 1) sv
        | none => res
      | _ => res
    positionalFill rest (i + 1) res2

/-- `path.count("_")`. -/
def countUnderscores (s : String) : Nat :=
  s.data.countP (fun c => c == '_')

mutual
/-- The recursive `scan` of `_parse_json_for_codes` (lines 265-297).  Its
guard returns early when the accumulated path holds more than five
underscore characters; the path separator is `/`, so the guard does not
measure depth. -/
def scan (sc : Nat) (j : Json) (path : String)
    (res : List (Nat × String)) : List (Nat × String) :=
  if countUnderscores path > 5 then res
  else
    match j with
    | .obj fields => scanFields sc fields path res
    | .arr xs =>
      if xs.length = sc then positionalFill xs 0 res
      else scanArr sc xs 0 path res
    | _ => res

/-- The dict iteration of `scan`: record the entry, then recurse into the
value with the key appended to the path. -/
def scanFields (sc : Nat) (fields : List (String × Json)) (path : String)
    (res : List (Nat × String)) : List (Nat × String) :=
  match fields with
  | [] => res
  | (k, v) :: rest =>
    scanFields sc rest path
      (scan sc v (path ++ "/" ++ k) (scanDictEntry k v res))

/-- The list iteration of `scan` for lists whose length is not
`step_count`: recurse into every element with the index appended. -/
def scanArr (sc : Nat) (xs : List Json) (i : Nat) (path : String)
    (res : List (Nat × String)) : List (Nat × String) :=
  match xs with
  | [] => res
  | v :: rest =>
    scanArr sc rest (i + 1) path
      (scan sc v (path ++ "/[" ++ toString i ++ "]") res)
end

/-- The largest recorded stage index (`max(result.keys())`); 0 when
empty. -/
def maxKey (m : List (Nat × String)) : Nat :=
  m.foldl (fun a kv => max a kv.1) 0

/-- `_parse_json_for_codes(data, step_count)` (lines 258-305). -/
def parse_json_for_codes (data : Json) (step_count : Nat) :
    Option (List (Nat × String)) :=
  let result := scan step_count data "" []
  if result.length ≥ step_count ∨ (result ≠ [] ∧ maxKey result ≤ 30) then
    if result = [] then none else some result
  else if result.length ≥ 10 then some result else none

/-- `{"a": {"a": ... {"step_3": "CODE777"} ...}}`: a stage entry nested
`n` levels deep under underscore-free keys. -/
def nestA : Nat → Json
  | 0 => Json.obj [("step_3", Json.str "CODE777")]
  | n + 1 => Json.obj [("a", nestA n)]

/-- The same entry nested under keys that each contain one underscore. -/
def nestU : Nat → Json
  | 0 => Json.obj [("step_3", Json.str "CODE777")]
  | n + 1 => Json.obj [("u_", nestU n)]

lemma scan_str (sc : Nat) (s : String) (path : String)
    (res : List (Nat × String)) : scan sc (Json.str s) path res = res := by
  unfold scan
  split
  · rfl
  · rfl

lemma countUnderscores_append (p q : String) :
    countUnderscores (p ++ q) = countUnderscores p + countUnderscores q := by
  unfold countUnderscores
  show (p.data ++ q.data).countP _ = _
  exact List.countP_append _ _ _

lemma scan_nestA (n : Nat) (path : String)
    (h : countUnderscores path = 0) :
    scan 30 (nestA n) path [] = [(3, "CODE777")] := by
  induction n generalizing path with
  | zero =>
    unfold nestA scan
    rw [if_neg (by omega)]
    unfold scanFields
    rw [scan_str]
    unfold scanFields
    decide
  | succ n ih =>
    show scan 30 (Json.obj [("a", nestA n)]) path [] = _
    unfold scan
    rw [if_neg (by omega)]
    unfold scanFields
    unfold scanFields
    have hde : scanDictEntry "a" (nestA n) [] = [] := by
      cases n <;> rfl
    rw [hde]
    apply ih
    rw [countUnderscores_append, countUnderscores_append, h]
    decide

/-- Claim C8: the recursion-depth bound does not exist.  The guard of the
scanner counts underscores in the `/`-separated path, so for keys without
underscores the scan descends to arbitrary depth: for every `n` the stage
entry nested `n` levels deep is still found, refuting any fixed bound on
the nesting depth descended into.  The guard only prunes paths that
accumulate more than five underscores from the keys themselves, as the
`nestU` conjunct shows. -/
theorem scanner_depth_guard_ineffective :
    (∀ n, parse_json_for_codes (nestA n) 30 = some [(3, "CODE777")]) ∧
    parse_json_for_codes (nestU 6) 30 = none := by
  constructor
  · intro n
    unfold parse_json_for_codes
    rw [scan_nestA n "" rfl]
    decide
  · decide

/-! ## The implicit suffix rejection of the validator (claim C10)

`UNIT_LIKE_SUFFIX` contains the alternative `s\d?` with an optional
digit, so every string ending in `s`/`S` (optionally followed by one
digit) matches it, as do `px`/`em`/`rem`/`ms` endings and `%` followed by
digits.  The lemmas below show `str.strip()` preserves any non-whitespace
suffix, so the validator rejects all such strings. -/

lemma isDigitCh_ne_letters (c : Char) (h : isDigitCh c = true) :
    c ≠ 'x' ∧ c ≠ 'm' ∧ c ≠ 's' := by
  unfold isDigitCh at h
  split at h <;> first
    | exact ⟨by decide, by decide, by decide⟩
    | exact absurd h (by decide)

lemma map_asciiLower_digits (ds : List Char)
    (h : ∀ c ∈ ds, isDigitCh c = true) : ds.map asciiLower = ds := by
  induction ds with
  | nil => rfl
  | cons d t ih =>
    rw [List.map_cons, asciiLower_of_isDigitCh d (h d (by simp)),
      ih (fun c hc => h c (by simp [hc]))]

lemma unitSuffixRev_eq_default (c : Char) (l : List Char)
    (hx : c ≠ 'x') (hm : c ≠ 'm') (hs : c ≠ 's') :
    unitSuffixRev (c :: l) = (sDigitRev (c :: l) || percentRev (c :: l)) := by
  unfold unitSuffixRev
  split
  all_goals try rfl
  all_goals
    rename_i heq
    simp only [List.cons.injEq] at heq
    first
      | exact absurd heq.1 hx
      | exact absurd heq.1 hm
      | exact absurd heq.1 hs

lemma dropWhile_digits_append (ds r : List Char)
    (h : ∀ c ∈ ds, isDigitCh c = true) :
    (ds ++ '%' :: r).dropWhile isDigitCh = '%' :: r := by
  induction ds with
  | nil =>
    rw [List.nil_append, List.dropWhile_cons,
      show isDigitCh '%' = false from rfl]
    simp
  | cons d t ih =>
    rw [List.cons_append, List.dropWhile_cons, h d (by simp)]
    exact ih (fun c hc => h c (by simp [hc]))

lemma percentRev_digits (ds r : List Char)
    (h : ∀ c ∈ ds, isDigitCh c = true) :
    percentRev (ds ++ '%' :: r) = true := by
  unfold percentRev
  rw [dropWhile_digits_append ds r h]
  rfl

lemma strip_keeps_suffix (l pre t : List Char)
    (hrev : l.reverse = pre ++ t)
    (hws : ∀ c ∈ pre, wsChar c = false)
    (hne : pre ≠ []) :
    ∃ t2, (stripList l).reverse = pre ++ t2 := by
  have hstrip : (stripList l).reverse =
      (l.dropWhile wsChar).reverse.dropWhile wsChar := by
    simp [stripList]
  have hsplit : l.reverse =
      (l.dropWhile wsChar).reverse ++ (l.takeWhile wsChar).reverse := by
    conv_lhs => rw [← List.takeWhile_append_dropWhile (p := wsChar) (l := l)]
    rw [List.reverse_append]
  have heq : pre ++ t =
      (l.dropWhile wsChar).reverse ++ (l.takeWhile wsChar).reverse := by
    rw [← hrev, hsplit]
  have hhead : ∀ m : List Char, (l.dropWhile wsChar).reverse = pre ++ m →
      (stripList l).reverse = pre ++ m := by
    intro m hm
    rw [hstrip, hm]
    cases pre with
    | nil => exact absurd rfl hne
    | cons p0 pre2 =>
      rw [List.cons_append, List.dropWhile_cons, hws p0 (by simp)]
      simp
  rcases List.append_eq_append_iff.mp heq with ⟨a2, ha1, _⟩ | ⟨c2, hc1, hc2⟩
  · exact ⟨a2, hhead a2 ha1⟩
  · cases c2 with
    | nil =>
      refine ⟨[], hhead [] ?_⟩
      rw [List.append_nil] at hc1
      rw [List.append_nil]
      exact hc1.symm
    | cons x c3 =>
      exfalso
      have hx1 : x ∈ (l.takeWhile wsChar).reverse := by
        rw [hc2]
        simp
      have hx2 : wsChar x = true :=
        List.mem_takeWhile_imp (List.mem_reverse.mp hx1)
      have hx3 : x ∈ pre := by
        rw [hc1]
        simp
      rw [hws x hx3] at hx2
      exact absurd hx2 (by simp)

lemma unit_of_suffix (s : String) (pre t : List Char) (hne : pre ≠ [])
    (hrev : s.data.reverse = pre ++ t)
    (hws : ∀ c ∈ pre, wsChar c = false)
    (hgoal : ∀ r, unitSuffixRev (pre.map asciiLower ++ r) = true) :
    unitLikeSuffix (pyStrip s) = true := by
  obtain ⟨t2, ht2⟩ := strip_keeps_suffix s.data pre t hrev hws hne
  unfold unitLikeSuffix pyStrip
  rw [show (String.mk (stripList s.data)).data = stripList s.data from rfl]
  rw [show ((stripList s.data).map asciiLower).reverse =
      ((stripList s.data).reverse).map asciiLower from
    (List.map_reverse _ _).symm]
  rw [ht2, List.map_append]
  exact hgoal _

lemma is_unit_like_or_decoy_of_unit (t : String)
    (h : unitLikeSuffix t = true) : is_unit_like_or_decoy t = true := by
  unfold is_unit_like_or_decoy
  split
  · rfl
  · rw [if_pos (by simp [h])]

lemma is_valid_false_of_unit (s : String) (hne : s ≠ "")
    (h : unitLikeSuffix (pyStrip s) = true) :
    is_valid_step_code (some s) = false := by
  have hdef : is_valid_step_code (some s) =
      if s = "" then false else ! is_unit_like_or_decoy (pyStrip s) := rfl
  rw [hdef, if_neg hne]
  simp [is_unit_like_or_decoy_of_unit _ h]

lemma ne_empty_of_rev_append (s : String) (pre t0 : List Char)
    (hpre : pre ≠ []) (ht : s.data.reverse = pre ++ t0) : s ≠ "" := by
  intro he
  subst he
  rw [show ("" : String).data = [] from rfl, List.reverse_nil] at ht
  exact hpre (List.append_eq_nil.mp ht.symm).1

/-- Claim C10.  Implicit validator suffix rejection: every string ending
in `s` or `S`, optionally followed by one digit — and likewise every
string ending in `px`, `em` (hence `rem`), or `%` followed by digits
(`ms` endings are instances of the `s` case) — is rejected by
`is_valid_step_code`, regardless of the rest of the string; in particular
a genuine access code whose last character is `s`/`S` is always
classified invalid. -/
theorem validator_rejects_unit_suffix (s : String)
    (h : (∃ t, s.data.reverse = 's' :: t) ∨
         (∃ t, s.data.reverse = 'S' :: t) ∨
         (∃ d t, isDigitCh d = true ∧
           (s.data.reverse = d :: 's' :: t ∨ s.data.reverse = d :: 'S' :: t)) ∨
         (∃ t, s.data.reverse = 'x' :: 'p' :: t) ∨
         (∃ t, s.data.reverse = 'm' :: 'e' :: t) ∨
         (∃ ds t, (∀ c ∈ ds, isDigitCh c = true) ∧
           s.data.reverse = ds ++ '%' :: t)) :
    is_valid_step_code (some s) = false := by
  rcases h with ⟨t, ht⟩ | ⟨t, ht⟩ | ⟨d, t, hd, ht | ht⟩ | ⟨t, ht⟩ | ⟨t, ht⟩ |
    ⟨ds, t, hds, ht⟩
  · exact is_valid_false_of_unit s
      (ne_empty_of_rev_append s ['s'] t (by simp) ht)
      (unit_of_suffix s ['s'] t (by simp) ht (by decide) (fun r => rfl))
  · exact is_valid_false_of_unit s
      (ne_empty_of_rev_append s ['S'] t (by simp) ht)
      (unit_of_suffix s ['S'] t (by simp) ht (by decide) (fun r => rfl))
  · refine is_valid_false_of_unit s
      (ne_empty_of_rev_append s [d, 's'] t (by simp) ht)
      (unit_of_suffix s [d, 's'] t (by simp) ht ?_ ?_)
    · intro c hc
      rcases List.mem_cons.mp hc with rfl | hc2
      · exact wsChar_eq_false_of_isDigitCh c hd
      · simp only [List.mem_singleton] at hc2
        subst hc2
        decide
    · intro r
      rw [show ([d, 's'].map asciiLower) = [asciiLower d, 's'] from rfl,
        asciiLower_of_isDigitCh d hd]
      obtain ⟨hx, hm, hs⟩ := isDigitCh_ne_letters d hd
      rw [List.cons_append, unitSuffixRev_eq_default d _ hx hm hs]
      rw [Bool.or_eq_true]
      refine Or.inl ?_
      simpa [sDigitRev] using hd
  · refine is_valid_false_of_unit s
      (ne_empty_of_rev_append s [d, 'S'] t (by simp) ht)
      (unit_of_suffix s [d, 'S'] t (by simp) ht ?_ ?_)
    · intro c hc
      rcases List.mem_cons.mp hc with rfl | hc2
      · exact wsChar_eq_false_of_isDigitCh c hd
      · simp only [List.mem_singleton] at hc2
        subst hc2
        decide
    · intro r
      rw [show ([d, 'S'].map asciiLower) = [asciiLower d, 's'] from rfl,
        asciiLower_of_isDigitCh d hd]
      obtain ⟨hx, hm, hs⟩ := isDigitCh_ne_letters d hd
      rw [List.cons_append, unitSuffixRev_eq_default d _ hx hm hs]
      rw [Bool.or_eq_true]
      refine Or.inl ?_
      simpa [sDigitRev] using hd
  · exact is_valid_false_of_unit s
      (ne_empty_of_rev_append s ['x', 'p'] t (by simp) ht)
      (unit_of_suffix s ['x', 'p'] t (by simp) ht (by decide) (fun r => rfl))
  · exact is_valid_false_of_unit s
      (ne_empty_of_rev_append s ['m', 'e'] t (by simp) ht)
      (unit_of_suffix s ['m', 'e'] t (by simp) ht (by decide) (fun r => rfl))
  · have ht2 : s.data.reverse = (ds ++ ['%']) ++ t := by
      rw [List.append_assoc]
      exact ht
    have hne2 : ds ++ ['%'] ≠ [] := by simp
    refine is_valid_false_of_unit s
      (ne_empty_of_rev_append s (ds ++ ['%']) t hne2 ht2)
      (unit_of_suffix s (ds ++ ['%']) t hne2 ht2 ?_ ?_)
    · intro c hc
      rcases List.mem_append.mp hc with hc2 | hc2
      · exact wsChar_eq_false_of_isDigitCh c (hds c hc2)
      · simp only [List.mem_singleton] at hc2
        subst hc2
        decide
    · intro r
      rw [List.map_append, map_asciiLower_digits ds hds, List.append_assoc]
      show unitSuffixRev (ds ++ '%' :: r) = true
      cases ds with
      | nil =>
        rw [List.nil_append,
          unitSuffixRev_eq_default '%' r (by decide) (by decide) (by decide)]
        rw [Bool.or_eq_true]
        refine Or.inr ?_
        exact percentRev_digits [] r (by simp)
      | cons d ds2 =>
        have hd := hds d (by simp)
        obtain ⟨hx, hm, hs⟩ := isDigitCh_ne_letters d hd
        rw [List.cons_append, unitSuffixRev_eq_default d _ hx hm hs]
        rw [Bool.or_eq_true]
        refine Or.inr ?_
        have hp := percentRev_digits (d :: ds2) r hds
        simpa [List.cons_append] using hp

/-- Witness for C10: the plausible code "ACCESS" ends in `S` and is
rejected by the validator. -/
theorem validator_rejects_unit_suffix_witness :
    is_valid_step_code (some "ACCESS") = false :=
  validator_rejects_unit_suffix "ACCESS"
    (Or.inr (Or.inl ⟨"SECCA".data, by decide⟩))

end AgentAuto
